import Mathlib

set_option maxHeartbeats 1000000

/-!
Verification of the boundary-detector training pipeline
(`apps/web/scripts/train-boundary-detector/`: `train_model.py`,
`pipeline_preview.py`, `test_inference.py`, `marker_masking.py`).

Embedding conventions:
* machine floats are embedded as exact rationals (`ℚ`) where the source only
  performs field operations, and as reals (`ℝ`) where `sqrt`/`exp`/trig occur;
* `uint8` pixel values are natural numbers in `[0, 255]`;
* `np.clip(v, lo, hi)` is `max lo (min v hi)`; `astype` to an integer type
  truncates toward zero;
* images `(H, W, 3)` are functions `row → col → channel → value` together with
  explicit dimensions where the source uses them.
-/

namespace BoundaryDetector

/-- Embeds `np.clip(v, 0, 255).astype(np.uint8)`: clip a float pixel to
`[0, 255]` and truncate to an unsigned byte (the clipped value is nonnegative,
so truncation toward zero is the floor). -/
def clipByte (v : ℚ) : ℕ := (⌊max 0 (min v 255)⌋).toNat

/-- A `(H, W, 3)` uint8 image: `row → col → channel → byte`. -/
def U8Image := ℕ → ℕ → Fin 3 → ℕ

/-- Embeds `train_model.augment_brightness`
(`np.clip(image.astype(np.float32) * factor, 0, 255).astype(np.uint8)`). -/
def trainModelAugmentBrightness (img : U8Image) (factor : ℚ) : U8Image :=
  fun y x c => clipByte ((img y x c : ℚ) * factor)

/-- Embeds `pipeline_preview.augment_brightness` (same expression as the
training one, written with intermediate bindings in the source). -/
def pipelinePreviewAugmentBrightness (img : U8Image) (factor : ℚ) : U8Image :=
  fun y x c => clipByte ((img y x c : ℚ) * factor)

/-- Embeds `train_model.augment_saturation`: per-pixel grayscale mean over the
channel axis (`np.mean(image, axis=2)`), blend each channel between the gray
value and the original by `factor`, clip, cast back to uint8. -/
def trainModelAugmentSaturation (img : U8Image) (factor : ℚ) : U8Image :=
  fun y x c =>
    let gray : ℚ := ((img y x 0 : ℚ) + (img y x 1 : ℚ) + (img y x 2 : ℚ)) / 3
    clipByte (gray + ((img y x c : ℚ) - gray) * factor)

/-- Modelled from the OpenCV documentation for `cv2.cvtColor(..., COLOR_RGB2HSV)`
on 8-bit images (an external library call made by `pipeline_preview.py`):
`V = max(R,G,B)`, `S = 255·(V−min)/V` (0 when `V = 0`), hue in degrees from the
dominant channel, halved to fit `[0,180]`; fractional results rounded. -/
def rgb2hsvU8 (r g b : ℕ) : ℕ × ℕ × ℕ :=
  let v : ℕ := max r (max g b)
  let mn : ℕ := min r (min g b)
  let s : ℕ := if v = 0 then 0 else (round ((255 * ((v : ℚ) - (mn : ℚ))) / (v : ℚ))).toNat
  let hdeg : ℚ :=
    if v = mn then 0
    else if v = r then 60 * ((g : ℚ) - (b : ℚ)) / ((v : ℚ) - (mn : ℚ))
    else if v = g then 120 + 60 * ((b : ℚ) - (r : ℚ)) / ((v : ℚ) - (mn : ℚ))
    else 240 + 60 * ((r : ℚ) - (g : ℚ)) / ((v : ℚ) - (mn : ℚ))
  let hpos : ℚ := if hdeg < 0 then hdeg + 360 else hdeg
  ((round (hpos / 2)).toNat, s, v)

/-- Modelled from the OpenCV documentation for `cv2.cvtColor(..., COLOR_HSV2RGB)`
on 8-bit images (an external library call made by `pipeline_preview.py`): the
stored hue is doubled back to degrees and the standard sector formula applied;
in particular `S = 0` yields the achromatic pixel `(V, V, V)`. -/
def hsv2rgbU8 (hh s v : ℕ) : ℕ × ℕ × ℕ :=
  let hsec : ℚ := (2 * (hh : ℚ)) / 60
  let i : ℤ := ⌊hsec⌋ % 6
  let f : ℚ := hsec - (⌊hsec⌋ : ℚ)
  let p : ℚ := (v : ℚ) * (1 - (s : ℚ) / 255)
  let q : ℚ := (v : ℚ) * (1 - f * ((s : ℚ) / 255))
  let t : ℚ := (v : ℚ) * (1 - (1 - f) * ((s : ℚ) / 255))
  let rgb : ℚ × ℚ × ℚ :=
    if i = 0 then ((v : ℚ), t, p)
    else if i = 1 then (q, (v : ℚ), p)
    else if i = 2 then (p, (v : ℚ), t)
    else if i = 3 then (p, q, (v : ℚ))
    else if i = 4 then (t, p, (v : ℚ))
    else ((v : ℚ), p, q)
  ((round rgb.1).toNat, (round rgb.2.1).toNat, (round rgb.2.2).toNat)

/-- Embeds `pipeline_preview.augment_saturation`: convert the pixel to HSV,
scale the S channel by `factor`, clip to `[0,255]`, truncate back to uint8
(`hsv.astype(np.uint8)`), convert back to RGB. -/
def pipelinePreviewAugmentSaturation (img : U8Image) (factor : ℚ) : U8Image :=
  fun y x c =>
    let hsv := rgb2hsvU8 (img y x 0) (img y x 1) (img y x 2)
    let s2 : ℕ := (⌊max 0 (min ((hsv.2.1 : ℚ) * factor) 255)⌋).toNat
    let rgb := hsv2rgbU8 hsv.1 s2 hsv.2.2
    if c = 0 then rgb.1 else if c = 1 then rgb.2.1 else rgb.2.2

/-- A 1×1 test image whose only pixel is `(R,G,B) = (200,100,0)`. -/
def demoPixelImage : U8Image := fun _ _ c =>
  match c with
  | 0 => 200
  | 1 => 100
  | 2 => 0

/-! ### Training loop checkpointing (train_model.train_model, lines 933-938 and 1081-1096) -/

/-- State carried across epochs by the checkpointing logic of
`train_model.train_model`: `best_val_loss` (`none` embeds `float('inf')`),
`best_weights` (`some e` embeds the snapshot captured at one-based epoch `e`),
the patience counter, and whether the `break` fires this epoch. -/
structure TrainState where
  bestValLoss : Option ℚ
  bestWeights : Option ℕ
  patienceCounter : ℕ
  stopNow : Bool
deriving DecidableEq

/-- Embeds `patience = 8`. -/
def trainPatience : ℕ := 8

/-- Embeds `min_delta = 0.001`. -/
def trainMinDelta : ℚ := 1 / 1000

/-- Embeds the guard `val_loss < best_val_loss - min_delta`
(`best_val_loss = float('inf')` makes it vacuously true). -/
def improvesBest (best : Option ℚ) (valLoss : ℚ) : Bool :=
  match best with
  | none => true
  | some b => decide (valLoss < b - trainMinDelta)

/-- Embeds one epoch of the checkpoint decision (train_model.py lines
1081-1093): on improvement capture the weights and reset the counter,
otherwise increment the counter and stop once it reaches `patience`. -/
def epochStep (s : TrainState) (epoch : ℕ) (valLoss : ℚ) : TrainState :=
  if improvesBest s.bestValLoss valLoss then
    { bestValLoss := some valLoss, bestWeights := some epoch,
      patienceCounter := 0, stopNow := false }
  else
    { s with patienceCounter := s.patienceCounter + 1,
             stopNow := decide (s.patienceCounter + 1 ≥ trainPatience) }

/-- Runs the epoch loop over a list of validation losses, stopping when the
early-stopping `break` fires; returns the final state and the number of
epochs executed. -/
def runEpochs : TrainState → ℕ → List ℚ → TrainState × ℕ
  | s, e, [] => (s, e)
  | s, e, v :: rest =>
    let s2 := epochStep s (e + 1) v
    if s2.stopNow then (s2, e + 1) else runEpochs s2 (e + 1) rest

/-- Embeds the whole checkpointing path of `train_model.train_model`: run the
epochs, then `if best_weights: model.set_weights(best_weights)`. Weights are
named by the epoch that produced them, so the model's weights after the loop
are the last executed epoch unless a best snapshot is restored. Returns
`(epochs executed, epoch whose weights the model ends with)`. -/
def trainLoopCheckpoints (losses : List ℚ) : ℕ × ℕ :=
  let r := runEpochs ⟨none, none, 0, false⟩ 0 losses
  (r.2, match r.1.bestWeights with | some wi => wi | none => r.2)

/-- A validation-loss sequence that improves for 3 epochs then plateaus:
no later epoch beats `0.8` by more than `min_delta = 0.001`. -/
def scenarioLosses : List ℚ := [1, 9/10, 8/10] ++ List.replicate 17 (8/10)

/-! ### Convexity loss (train_model.convexity_loss, lines 836-865) -/

/-- Embeds `tf.nn.relu`. -/
def reluQ (v : ℚ) : ℚ := max v 0

/-- Embeds the helper `cross_product_2d` of `train_model.convexity_loss`. -/
def cross2 (v1 v2 : ℚ × ℚ) : ℚ := v1.1 * v2.2 - v1.2 * v2.1

/-- One iteration of the `for i in range(4)` loop of
`train_model.convexity_loss`: the hinge `relu(-cross)` of the two edge
vectors `p2 - p1` and `p3 - p2`. -/
def convexityTerm (p1 p2 p3 : ℚ × ℚ) : ℚ :=
  reluQ (-(cross2 (p2.1 - p1.1, p2.2 - p1.2) (p3.1 - p2.1, p3.2 - p2.2)))

/-- Embeds `train_model.convexity_loss` for a batch of one decoded
quadrilateral, taking the decoded corners in the model's output order
`TL, TR, BL, BR`: reorder to the walking order `TL, TR, BR, BL`, then run the
4 iterations of the loop over cyclically consecutive corner triples
(indices `i, (i+1) % 4, (i+2) % 4`), accumulating `relu(-cross)`; the batch
mean of a single sample is the value itself. -/
def convexity_loss (tl tr bl br : ℚ × ℚ) : ℚ :=
  convexityTerm tl tr br + convexityTerm tr br bl +
    convexityTerm br bl tl + convexityTerm bl tl tr

/-- Strict orientation test of the triangle `a b c` (positive cross product). -/
def orient (a b c : ℚ × ℚ) : ℚ :=
  (b.1 - a.1) * (c.2 - a.2) - (b.2 - a.2) * (c.1 - a.1)

/-- The open segments `a-b` and `c-d` properly cross (each segment's endpoints
are strictly on opposite sides of the other's supporting line). -/
def properCrossB (a b c d : ℚ × ℚ) : Bool :=
  decide (orient a b c * orient a b d < 0) && decide (orient c d a * orient c d b < 0)

/-- A closed 4-walk `p0 p1 p2 p3` is a bowtie (self-intersecting): one pair of
its opposite edges properly crosses. -/
def bowtieWalkB (p0 p1 p2 p3 : ℚ × ℚ) : Bool :=
  properCrossB p0 p1 p2 p3 || properCrossB p1 p2 p3 p0

/-- The 4 corner points of the unit square. -/
def unitSquarePts : List (ℚ × ℚ) := [(0, 0), (1, 0), (0, 1), (1, 1)]

/-! ### DSNT decoders (train_model.dsnt_decode, test_inference.dsnt_decode_numpy,
and the inline decode of train_model.generate_inference_samples) -/

noncomputable section

/-- Embeds `np.linspace(0, 1, n)` / `tf.linspace(0.0, 1.0, n)` at index `i`
(a single-entry grid is `[0]`). -/
def linspace01 (n i : ℕ) : ℝ := if n ≤ 1 then 0 else (i : ℝ) / ((n : ℝ) - 1)

/-- Embeds `np.max` over the flattened `h × w` grid of a real-valued array
(`np.max` of an empty array is an error; the `0` default for the empty grid is
never exercised by the claims). -/
def flatMax (a : ℕ → ℕ → ℝ) (h w : ℕ) : ℝ :=
  match (List.range h).flatMap (fun y => (List.range w).map fun x => a y x) with
  | [] => 0
  | v :: rest => rest.foldl max v

/-- Embeds `train_model.dsnt_decode` (TensorFlow, one keypoint channel of a
batch-one tensor): softmax of the flattened heatmap at the fixed temperature
10 (`tf.nn.softmax(heatmaps_flat * 10)`, mathematically
`exp(v*10) / Σ exp(v*10)`), then the expectation of the `linspace(0,1,·)`
coordinate grids. The heatmap is `hm row col` with `h` rows and `w` cols. -/
def dsnt_decode (hm : ℕ → ℕ → ℝ) (h w : ℕ) : ℝ × ℝ :=
  let Z := ∑ y ∈ Finset.range h, ∑ x ∈ Finset.range w, Real.exp (hm y x * 10)
  (∑ y ∈ Finset.range h, ∑ x ∈ Finset.range w, linspace01 w x * (Real.exp (hm y x * 10) / Z),
   ∑ y ∈ Finset.range h, ∑ x ∈ Finset.range w, linspace01 h y * (Real.exp (hm y x * 10) / Z))

/-- Embeds `test_inference.dsnt_decode_numpy` for one heatmap channel: scale by
the temperature, subtract the flattened maximum for stability, exponentiate,
normalize by the exact sum, and take the expectation of the coordinate
grids. -/
def dsnt_decode_numpy (hm : ℕ → ℕ → ℝ) (h w : ℕ) (temperature : ℝ) : ℝ × ℝ :=
  let M := flatMax (fun y x => hm y x * temperature) h w
  let Z := ∑ y ∈ Finset.range h, ∑ x ∈ Finset.range w, Real.exp (hm y x * temperature - M)
  (∑ y ∈ Finset.range h, ∑ x ∈ Finset.range w,
      Real.exp (hm y x * temperature - M) / Z * linspace01 w x,
   ∑ y ∈ Finset.range h, ∑ x ∈ Finset.range w,
      Real.exp (hm y x * temperature - M) / Z * linspace01 h y)

/-- Embeds the inline per-sample decode of
`train_model.generate_inference_samples` (lines 186-199): subtract the
maximum, exponentiate, normalize by `sum + 1e-8`, take the expectation of the
coordinate grids; no temperature factor is applied. -/
def inline_dsnt_decode (hm : ℕ → ℕ → ℝ) (h w : ℕ) : ℝ × ℝ :=
  let M := flatMax hm h w
  let Z := ∑ y ∈ Finset.range h, ∑ x ∈ Finset.range w, Real.exp (hm y x - M)
  (∑ y ∈ Finset.range h, ∑ x ∈ Finset.range w,
      Real.exp (hm y x - M) / (Z + 1e-8) * linspace01 w x,
   ∑ y ∈ Finset.range h, ∑ x ∈ Finset.range w,
      Real.exp (hm y x - M) / (Z + 1e-8) * linspace01 h y)

/-- The all-zero heatmap. -/
def zeroHeatmap : ℕ → ℕ → ℝ := fun _ _ => 0

/-- Embeds `train_model.generate_heatmap`: Gaussian bump of standard deviation
`sigma` centered at the normalized point `p` scaled by `size`; `y` is the grid
row, `x` the column. -/
def generate_heatmap (p : ℝ × ℝ) (size : ℕ) (sigma : ℝ) : ℕ → ℕ → ℝ :=
  fun y x =>
    Real.exp (-(((x : ℝ) - p.1 * size) ^ 2 + ((y : ℝ) - p.2 * size) ^ 2) / (2 * sigma ^ 2))

/-! ### Marker geometry (marker_masking.py) -/

/-- Truncation of a machine float toward zero, as numpy `int(...)` and
`.astype(np.int32)` perform it. -/
def truncInt (x : ℝ) : ℤ := if 0 ≤ x then ⌊x⌋ else ⌈x⌉

/-- Embeds `marker_masking.estimate_marker_size`: scale the normalized corners
`[TL, TR, BL, BR]` to pixels, compute the four Euclidean edge lengths, take
the shortest, multiply by `size_factor`, truncate to int, clamp to
`[20, 150]`. -/
def estimate_marker_size (c0 c1 c2 c3 : ℝ × ℝ) (imageWidth imageHeight : ℕ)
    (sizeFactor : ℝ) : ℤ :=
  let tl := (c0.1 * imageWidth, c0.2 * imageHeight)
  let tr := (c1.1 * imageWidth, c1.2 * imageHeight)
  let bl := (c2.1 * imageWidth, c2.2 * imageHeight)
  let br := (c3.1 * imageWidth, c3.2 * imageHeight)
  let topEdge := Real.sqrt ((tr.1 - tl.1) ^ 2 + (tr.2 - tl.2) ^ 2)
  let bottomEdge := Real.sqrt ((br.1 - bl.1) ^ 2 + (br.2 - bl.2) ^ 2)
  let leftEdge := Real.sqrt ((bl.1 - tl.1) ^ 2 + (bl.2 - tl.2) ^ 2)
  let rightEdge := Real.sqrt ((br.1 - tr.1) ^ 2 + (br.2 - tr.2) ^ 2)
  let shorterEdge := min (min (min topEdge bottomEdge) leftEdge) rightEdge
  let markerSize := truncInt (shorterEdge * sizeFactor)
  max 20 (min markerSize 150)

/-! ### Analysis helpers for the `(0.5, 0.5)` round-trip: the heatmap
`generate_heatmap (0.5, 0.5) 56 2` factorizes as `gaussF x * gaussF y`, and the
DSNT softmax weights, their column sums and total mass are named below. -/

/-- One-dimensional factor `exp(-(i-28)^2/8)` of the heatmap generated for the
keypoint `(0.5, 0.5)` at size 56, sigma 2. -/
def gaussF (i : ℕ) : ℝ := Real.exp (-(((i : ℝ) - 28) ^ 2) / 8)

/-- Unnormalized softmax weight of the temperature-10 DSNT decode of that
heatmap at grid row `y`, column `x`. -/
def gaussW (y x : ℕ) : ℝ := Real.exp (gaussF x * gaussF y * 10)

/-- Column sum of the weights. -/
def gaussS (x : ℕ) : ℝ := ∑ y ∈ Finset.range 56, gaussW y x

/-- Total mass of the weights. -/
def gaussZ : ℝ := ∑ x ∈ Finset.range 56, gaussS x

/-! ### Rotated mask polygons (marker_masking.get_rotated_mask_polygon) -/

/-- Embeds `np.arctan2 y x` by its standard definition (in particular
`arctan2 0 0 = 0`, as numpy documents for `+0, +0`). -/
def arctan2 (y x : ℝ) : ℝ :=
  if 0 < x then Real.arctan (y / x)
  else if x < 0 then
    (if 0 ≤ y then Real.arctan (y / x) + Real.pi else Real.arctan (y / x) - Real.pi)
  else if 0 < y then Real.pi / 2
  else if y < 0 then -(Real.pi / 2)
  else 0

/-- Minimum of a list of ints with a default for the empty list (the source
only applies it to the 4 polygon vertices). -/
def listMinD (l : List ℤ) : ℤ :=
  match l with
  | [] => 0
  | v :: rest => rest.foldl min v

/-- Maximum of a list of ints with a default for the empty list. -/
def listMaxD (l : List ℤ) : ℤ :=
  match l with
  | [] => 0
  | v :: rest => rest.foldl max v

/-- Embeds `marker_masking.get_rotated_mask_polygon` over exact reals: scale
the corner and quad center to pixels, form the outward direction (normalized
only under the `length > 0` guard), offset the mask center `0.4·marker_size`
outward, rotate the `±half_size` square by `arctan2 dy dx`, translate, and
truncate to int32. The `rotation_angle` parameter of the source is accepted
and, exactly as in the source, never used. -/
def getRotatedMaskPolygon (corner quadCenter : ℝ × ℝ) (markerSize : ℤ)
    (imageWidth imageHeight : ℕ) (expansion rotationAngle : ℝ) : List (ℤ × ℤ) :=
  let cx := corner.1 * imageWidth
  let cy := corner.2 * imageHeight
  let centerX := quadCenter.1 * imageWidth
  let centerY := quadCenter.2 * imageHeight
  let dx0 := cx - centerX
  let dy0 := cy - centerY
  let len := Real.sqrt (dx0 ^ 2 + dy0 ^ 2)
  let dx := if 0 < len then dx0 / len else dx0
  let dy := if 0 < len then dy0 / len else dy0
  let maskSize : ℤ := truncInt ((markerSize : ℝ) * expansion)
  let halfSize : ℤ := Int.fdiv maskSize 2
  let maskCx := cx + dx * (markerSize : ℝ) * 0.4
  let maskCy := cy + dy * (markerSize : ℝ) * 0.4
  let angle := arctan2 dy dx
  let cosA := Real.cos angle
  let sinA := Real.sin angle
  let rel : List (ℝ × ℝ) :=
    [(-(halfSize : ℝ), -(halfSize : ℝ)), ((halfSize : ℝ), -(halfSize : ℝ)),
     ((halfSize : ℝ), (halfSize : ℝ)), (-(halfSize : ℝ), (halfSize : ℝ))]
  rel.map fun p =>
    (truncInt (p.1 * cosA - p.2 * sinA + maskCx), truncInt (p.1 * sinA + p.2 * cosA + maskCy))

/-! ### Float-partiality tracking for the direction normalization (C9).
`Option ℝ` embeds IEEE floats: `some v` is a finite value, `none` a
non-finite result (NaN or infinity); every arithmetic operation propagates
`none`, division by zero and square roots of negative numbers produce it, and
any comparison against `none` is false, as for NaN. -/

/-- Lifted addition. -/
def fAdd (a b : Option ℝ) : Option ℝ :=
  match a, b with
  | some x, some y => some (x + y)
  | _, _ => none

/-- Lifted subtraction. -/
def fSub (a b : Option ℝ) : Option ℝ :=
  match a, b with
  | some x, some y => some (x - y)
  | _, _ => none

/-- Lifted multiplication. -/
def fMul (a b : Option ℝ) : Option ℝ :=
  match a, b with
  | some x, some y => some (x * y)
  | _, _ => none

/-- Lifted division; dividing by zero gives a non-finite float. -/
def fDiv (a b : Option ℝ) : Option ℝ :=
  match a, b with
  | some x, some y => if y = 0 then none else some (x / y)
  | _, _ => none

/-- Lifted square root; negative arguments give NaN. -/
def fSqrt (a : Option ℝ) : Option ℝ :=
  match a with
  | some x => if x < 0 then none else some (Real.sqrt x)
  | none => none

/-- Lifted `np.arctan2` (total on finite inputs). -/
def fArctan2 (y x : Option ℝ) : Option ℝ :=
  match y, x with
  | some yy, some xx => some (arctan2 yy xx)
  | _, _ => none

/-- Embeds lines 84-96 of `marker_masking.get_rotated_mask_polygon` with
float-partiality tracking: the outward direction `(dx, dy)`, normalized by the
length only when the comparison `length > 0` succeeds (a NaN length compares
false, leaving the vector unnormalized). -/
def maskDirectionF (corner quadCenter : ℝ × ℝ) (imageWidth imageHeight : ℕ) :
    Option ℝ × Option ℝ :=
  let cx : Option ℝ := some (corner.1 * imageWidth)
  let cy : Option ℝ := some (corner.2 * imageHeight)
  let centerX : Option ℝ := some (quadCenter.1 * imageWidth)
  let centerY : Option ℝ := some (quadCenter.2 * imageHeight)
  let dx := fSub cx centerX
  let dy := fSub cy centerY
  let len := fSqrt (fAdd (fMul dx dx) (fMul dy dy))
  match len with
  | some l => if 0 < l then (fDiv dx (some l), fDiv dy (some l)) else (dx, dy)
  | none => (dx, dy)

/-- Embeds lines 98-106 of `marker_masking.get_rotated_mask_polygon` with
float-partiality tracking: the mask center, offset `0.4·marker_size` outward
from the pixel corner along the direction vector. -/
def maskCenterF (corner quadCenter : ℝ × ℝ) (markerSize : ℤ)
    (imageWidth imageHeight : ℕ) : Option ℝ × Option ℝ :=
  let d := maskDirectionF corner quadCenter imageWidth imageHeight
  let offX := fMul (fMul d.1 (some (markerSize : ℝ))) (some 0.4)
  let offY := fMul (fMul d.2 (some (markerSize : ℝ))) (some 0.4)
  (fAdd (some (corner.1 * imageWidth)) offX, fAdd (some (corner.2 * imageHeight)) offY)

/-- Embeds the remainder of `marker_masking.get_rotated_mask_polygon` with
float-partiality tracking: rotate the `±half_size` square by `arctan2 dy dx`
around the mask center and truncate to int32 (`none` marks a vertex whose
float computation went non-finite). -/
def getRotatedMaskPolygonF (corner quadCenter : ℝ × ℝ) (markerSize : ℤ)
    (imageWidth imageHeight : ℕ) (expansion : ℝ) : List (Option ℤ × Option ℤ) :=
  let d := maskDirectionF corner quadCenter imageWidth imageHeight
  let c := maskCenterF corner quadCenter markerSize imageWidth imageHeight
  let maskSize : ℤ := truncInt ((markerSize : ℝ) * expansion)
  let halfSize : ℤ := Int.fdiv maskSize 2
  let angle := fArctan2 d.2 d.1
  let cosA := Option.map Real.cos angle
  let sinA := Option.map Real.sin angle
  let rel : List (ℝ × ℝ) :=
    [(-(halfSize : ℝ), -(halfSize : ℝ)), ((halfSize : ℝ), -(halfSize : ℝ)),
     ((halfSize : ℝ), (halfSize : ℝ)), (-(halfSize : ℝ), (halfSize : ℝ))]
  rel.map fun p =>
    (Option.map truncInt (fAdd (fSub (fMul (some p.1) cosA) (fMul (some p.2) sinA)) c.1),
     Option.map truncInt (fAdd (fAdd (fMul (some p.1) sinA) (fMul (some p.2) cosA)) c.2))

/-! ### Shape/dtype propagation of marker_masking.mask_markers (C7, C8).
Pixel contents are irrelevant to the shape/dtype claims, so images are
embedded by their metadata; the shape/dtype behaviour of the library calls
(`cv2.GaussianBlur` and `cv2.inpaint` preserve the input's shape and dtype,
`np.random.rand(...).astype(np.float32)` is float32, and binary ufuncs follow
the numpy float promotion rule) is modelled from their documented
contracts. -/

/-- The three dtypes `mask_markers` distinguishes. -/
inductive NpDtype
  | u8
  | f32
  | f64
deriving DecidableEq

/-- Numpy promotion for arithmetic between these dtypes. -/
def promoteF (a b : NpDtype) : NpDtype :=
  if a = NpDtype.f64 ∨ b = NpDtype.f64 then NpDtype.f64
  else if a = NpDtype.f32 ∨ b = NpDtype.f32 then NpDtype.f32
  else NpDtype.u8

/-- The four masking methods. -/
inductive MaskMethod
  | noise
  | blur
  | black
  | inpaint
deriving DecidableEq

/-- Image metadata: shape `(height, width, channels)` and dtype. -/
structure MetaImage where
  height : ℕ
  width : ℕ
  channels : ℕ
  dtype : NpDtype
deriving DecidableEq

/-- Embeds the quad-center computation of `mask_markers`
(`sum(...) / 4` in each coordinate). -/
def quadCenterOf (corners : List (ℝ × ℝ)) : ℝ × ℝ :=
  ((corners.map Prod.fst).sum / 4, (corners.map Prod.snd).sum / 4)

/-- Dtype after one iteration of the corner loop of `mask_markers`: compute
the rotated polygon and its clipped bounding box, skip empty regions
(`x2 <= x1 or y2 <= y1`), otherwise apply the selected method's dtype flow:
`noise`/`blur` composite the (dtype-preserving) blurred image with float32
masks and cast back to uint8 on the integer path, `black` assigns in place,
`inpaint` round-trips through uint8 and, on the float path, returns
`inpainted.astype(np.float32) / 255.0`. -/
def maskCornerDtypeStep (isFloat : Bool) (method : MaskMethod) (w h : ℕ)
    (quadC : ℝ × ℝ) (ms : ℤ) (expansion : ℝ) (d : NpDtype) (corner : ℝ × ℝ) : NpDtype :=
  let poly := getRotatedMaskPolygon corner quadC ms w h expansion 0
  let x1 := max 0 (listMinD (poly.map Prod.fst))
  let y1 := max 0 (listMinD (poly.map Prod.snd))
  let x2 := min (w : ℤ) (listMaxD (poly.map Prod.fst))
  let y2 := min (h : ℤ) (listMaxD (poly.map Prod.snd))
  if x2 ≤ x1 ∨ y2 ≤ y1 then d
  else
    match method with
    | MaskMethod.noise =>
      if isFloat then
        promoteF (promoteF d NpDtype.f32) (promoteF (promoteF d NpDtype.f32) NpDtype.f32)
      else NpDtype.u8
    | MaskMethod.blur =>
      if isFloat then promoteF (promoteF d NpDtype.f32) (promoteF d NpDtype.f32)
      else NpDtype.u8
    | MaskMethod.black => d
    | MaskMethod.inpaint => if isFloat then NpDtype.f32 else d

/-- Embeds `marker_masking.mask_markers` at the metadata level (after its
4-corner guard): copy the input, read `h, w` from the shape, compute
`is_float` once from the input dtype, the quad center and the marker size,
then run the corner loop; all the array operations preserve the `(h, w, 3)`
shape. -/
def mask_markers_meta (img : MetaImage) (corners : List (ℝ × ℝ)) (method : MaskMethod)
    (markerSizeFactor expansion : ℝ) : MetaImage :=
  let h := img.height
  let w := img.width
  let isFloat : Bool := decide (img.dtype = NpDtype.f32 ∨ img.dtype = NpDtype.f64)
  let quadC := quadCenterOf corners
  let ms := estimate_marker_size (corners.getD 0 (0, 0)) (corners.getD 1 (0, 0))
    (corners.getD 2 (0, 0)) (corners.getD 3 (0, 0)) w h markerSizeFactor
  let dOut := corners.foldl (maskCornerDtypeStep isFloat method w h quadC ms expansion) img.dtype
  { img with dtype := dOut }

/-- Embeds `marker_masking.mask_markers` including its only `raise`: the
`ValueError` on a corner list whose length is not 4. -/
def mask_markers_checked (img : MetaImage) (corners : List (ℝ × ℝ)) (method : MaskMethod)
    (markerSizeFactor expansion : ℝ) : Except String MetaImage :=
  if corners.length ≠ 4 then Except.error "Expected 4 corners"
  else Except.ok (mask_markers_meta img corners method markerSizeFactor expansion)

/-- The 4-corner annotation whose corners all sit at the image center. -/
def demoCorners : List (ℝ × ℝ) := [(0.5, 0.5), (0.5, 0.5), (0.5, 0.5), (0.5, 0.5)]

/-! ### Aliasing model of mask_markers (C10): a heap of arrays tracks which
array each statement of the source allocates or writes. Pixel contents are
abstracted behind `ArrayOps` (they are computed by numpy/cv2 calls external to
the repository and are irrelevant to aliasing); every allocation and in-place
write of the source body is translated. -/

/-- A heap of arrays: references are allocated in increasing order. -/
structure Heap (α : Type) where
  mem : ℕ → α
  next : ℕ

/-- Allocate a fresh array holding `v`. -/
def heapAlloc {α : Type} (h : Heap α) (v : α) : Heap α × ℕ :=
  (⟨fun i => if i = h.next then v else h.mem i, h.next + 1⟩, h.next)

/-- Write an existing array in place. -/
def heapWrite {α : Type} (h : Heap α) (r : ℕ) (v : α) : Heap α :=
  ⟨fun i => if i = r then v else h.mem i, h.next⟩

/-- The pixel-level operations of the `mask_markers` body, abstracted: each
field stands for the value produced by the corresponding numpy/cv2
expression. -/
structure ArrayOps (α : Type) where
  copyArr : α → α
  zerosArr : α
  fillPolyArr : α → List (ℤ × ℤ) → α
  gaussianBlurArr : α → α
  noiseFillArr : α → α
  compositeArr : α → α → α → α
  blackenArr : α → α → α
  toU8Arr : α → α
  inpaintArr : α → α → α
  fromU8Arr : α → α

/-- One iteration of the corner loop of `mask_markers` on the heap: skip empty
regions; otherwise allocate `poly_mask` (`np.zeros`), fill it in place
(`cv2.fillPoly`), and run the selected method: `noise` and `blur` allocate the
blurred arrays (twice) and rebind `result` to a freshly allocated composite;
`black` writes `result` in place; `inpaint` allocates `temp` (or the uint8
round-trip), the inpainted array, and rebinds `result`. The state is the pair
(heap, reference currently bound to `result`). -/
def maskCornerHeapStep {α : Type} (ops : ArrayOps α) (isFloat : Bool) (method : MaskMethod)
    (w h : ℕ) (quadC : ℝ × ℝ) (ms : ℤ) (expansion : ℝ)
    (st : Heap α × ℕ) (corner : ℝ × ℝ) : Heap α × ℕ :=
  let hp := st.1
  let resultRef := st.2
  let poly := getRotatedMaskPolygon corner quadC ms w h expansion 0
  let x1 := max 0 (listMinD (poly.map Prod.fst))
  let y1 := max 0 (listMinD (poly.map Prod.snd))
  let x2 := min (w : ℤ) (listMaxD (poly.map Prod.fst))
  let y2 := min (h : ℤ) (listMaxD (poly.map Prod.snd))
  if x2 ≤ x1 ∨ y2 ≤ y1 then st
  else
    let a1 := heapAlloc hp ops.zerosArr
    let hp1 := a1.1
    let maskRef := a1.2
    let hp2 := heapWrite hp1 maskRef (ops.fillPolyArr (hp1.mem maskRef) poly)
    if method = MaskMethod.noise then
      let b1 := heapAlloc hp2 (ops.gaussianBlurArr (hp2.mem resultRef))
      let b2 := heapAlloc b1.1 (ops.gaussianBlurArr (b1.1.mem b1.2))
      let f1 := heapAlloc b2.1 (ops.noiseFillArr (b2.1.mem b2.2))
      heapAlloc f1.1 (ops.compositeArr (f1.1.mem resultRef) (f1.1.mem f1.2) (f1.1.mem maskRef))
    else if method = MaskMethod.blur then
      let b1 := heapAlloc hp2 (ops.gaussianBlurArr (hp2.mem resultRef))
      let b2 := heapAlloc b1.1 (ops.gaussianBlurArr (b1.1.mem b1.2))
      heapAlloc b2.1 (ops.compositeArr (b2.1.mem resultRef) (b2.1.mem b2.2) (b2.1.mem maskRef))
    else if method = MaskMethod.black then
      (heapWrite hp2 resultRef (ops.blackenArr (hp2.mem resultRef) (hp2.mem maskRef)), resultRef)
    else if method = MaskMethod.inpaint then
      if isFloat then
        let t1 := heapAlloc hp2 (ops.toU8Arr (hp2.mem resultRef))
        let i1 := heapAlloc t1.1 (ops.inpaintArr (t1.1.mem t1.2) (t1.1.mem maskRef))
        heapAlloc i1.1 (ops.fromU8Arr (i1.1.mem i1.2))
      else
        let t1 := heapAlloc hp2 (ops.copyArr (hp2.mem resultRef))
        heapAlloc t1.1 (ops.inpaintArr (t1.1.mem t1.2) (t1.1.mem maskRef))
    else (hp2, resultRef)

/-- Embeds the body of `marker_masking.mask_markers` on the heap:
`result = image.copy()` allocates, the geometry is computed from the corners
and the `(h, w)` shape, and the corner loop runs. Returns the final heap and
the reference `result` is bound to. -/
def mask_markers_heap {α : Type} (ops : ArrayOps α) (hp0 : Heap α) (imageRef : ℕ)
    (corners : List (ℝ × ℝ)) (method : MaskMethod) (isFloat : Bool) (w h : ℕ)
    (markerSizeFactor expansion : ℝ) : Heap α × ℕ :=
  let a := heapAlloc hp0 (ops.copyArr (hp0.mem imageRef))
  let quadC := quadCenterOf corners
  let ms := estimate_marker_size (corners.getD 0 (0, 0)) (corners.getD 1 (0, 0))
    (corners.getD 2 (0, 0)) (corners.getD 3 (0, 0)) w h markerSizeFactor
  corners.foldl (maskCornerHeapStep ops isFloat method w h quadC ms expansion) (a.1, a.2)

/-- Trivial array operations on `ℕ`-valued array stand-ins, for instantiating
the aliasing model at a concrete input. -/
def trivArrayOps : ArrayOps ℕ where
  copyArr := id
  zerosArr := 0
  fillPolyArr := fun a _ => a
  gaussianBlurArr := id
  noiseFillArr := id
  compositeArr := fun a _ _ => a
  blackenArr := fun a _ => a
  toU8Arr := id
  inpaintArr := fun a _ => a
  fromU8Arr := id

/-- A one-array heap whose array 0 holds the value 0. -/
def trivHeap : Heap ℕ := ⟨fun _ => 0, 1⟩

end

/-! ## Theorems -/

/-- C1: the saturation augmentations reachable from the training path and from
the preview path are NOT numerically identical, contradicting the consistency
invariant and the preview file's own docstrings ("Same as train_model.py",
"uses the EXACT SAME code"): on the 1×1 image with pixel `(200,100,0)` and
factor `0`, the training implementation (grayscale blend) returns the mean
gray `(100,100,100)` while the preview implementation (HSV S-channel scaling)
returns the value gray `(200,200,200)`. -/
theorem claim_C1_saturation_paths_diverge :
    trainModelAugmentSaturation demoPixelImage 0 0 0 0 = 100 ∧
    pipelinePreviewAugmentSaturation demoPixelImage 0 0 0 0 = 200 := by
  constructor
  · norm_num [trainModelAugmentSaturation, demoPixelImage, clipByte]
    decide
  · norm_num [pipelinePreviewAugmentSaturation, demoPixelImage, rgb2hsvU8, hsv2rgbU8,
      round_eq, min_def, max_def]
    decide

/-- C3: the checkpointing logic counts an epoch as an improvement exactly when
its validation loss is below the best-so-far loss by strictly more than
`min_delta = 0.001`; an improvement captures the epoch's weights and resets the
patience counter, a non-improvement increments the counter and stops the loop
when it reaches `patience = 8`; a loss sequence improving for 3 epochs and then
plateauing stops at epoch 11 with the epoch-3 weights restored. -/
theorem claim_C3_checkpointing :
    (∀ (s : TrainState) (e : ℕ) (v b : ℚ), s.bestValLoss = some b →
      (b - v > trainMinDelta →
        epochStep s e v = ⟨some v, some e, 0, false⟩) ∧
      (¬ b - v > trainMinDelta →
        epochStep s e v =
          { s with patienceCounter := s.patienceCounter + 1,
                   stopNow := decide (s.patienceCounter + 1 ≥ trainPatience) })) ∧
    trainLoopCheckpoints scenarioLosses = (11, 3) := by
  constructor
  · intro s e v b hb
    constructor
    · intro himp
      simp only [epochStep, improvesBest, hb]
      rw [if_pos]
      simp only [decide_eq_true_eq]
      linarith
    · intro hnimp
      simp only [epochStep, improvesBest, hb]
      rw [if_neg]
      simp only [decide_eq_true_eq, not_lt]
      linarith
  · norm_num [trainLoopCheckpoints, runEpochs, scenarioLosses, epochStep, improvesBest,
      trainPatience, trainMinDelta, List.replicate]

/-- Witness for C3: one concrete improvement step, and the concrete plateau
scenario. -/
theorem claim_C3_checkpointing_witness :
    (TrainState.bestValLoss ⟨some 1, some 1, 0, false⟩ = some 1 ∧
      (1 : ℚ) - 1/2 > trainMinDelta ∧
      epochStep ⟨some 1, some 1, 0, false⟩ 2 (1/2) = ⟨some (1/2), some 2, 0, false⟩) ∧
    trainLoopCheckpoints scenarioLosses = (11, 3) := by
  refine ⟨⟨rfl, by norm_num [trainMinDelta], ?_⟩, claim_C3_checkpointing.2⟩
  exact (claim_C3_checkpointing.1 ⟨some 1, some 1, 0, false⟩ 2 (1/2) 1 rfl).1
    (by norm_num [trainMinDelta])

/-- C5: the convexity penalty is exactly 0 for the unit-square role assignment
`TL=(0,0), TR=(1,0), BL=(0,1), BR=(1,1)`, and is strictly positive for every
assignment of those same 4 points to roles whose walking order
`TL, TR, BR, BL` is a self-intersecting (bowtie) quadrilateral. -/
theorem claim_C5_convexity_square_zero_bowtie_positive :
    convexity_loss (0, 0) (1, 0) (0, 1) (1, 1) = 0 ∧
    ∀ tl tr bl br : ℚ × ℚ, tl ∈ unitSquarePts → tr ∈ unitSquarePts →
      bl ∈ unitSquarePts → br ∈ unitSquarePts →
      bowtieWalkB tl tr br bl = true → 0 < convexity_loss tl tr bl br := by
  constructor
  · norm_num [convexity_loss, convexityTerm, reluQ, cross2, max_def]
  · intro tl tr bl br htl htr hbl hbr hbow
    fin_cases htl <;> fin_cases htr <;> fin_cases hbl <;> fin_cases hbr <;>
      revert hbow <;>
      norm_num [bowtieWalkB, properCrossB, orient, convexity_loss, convexityTerm,
        reluQ, cross2, max_def]

/-- Witness for C5: the role assignment `TL=(0,0), TR=(1,0), BL=(1,1),
BR=(0,1)` walks a bowtie and gets a strictly positive penalty. -/
theorem claim_C5_convexity_witness :
    (((0 : ℚ), (0 : ℚ)) ∈ unitSquarePts ∧ ((1 : ℚ), (0 : ℚ)) ∈ unitSquarePts ∧
      ((1 : ℚ), (1 : ℚ)) ∈ unitSquarePts ∧ ((0 : ℚ), (1 : ℚ)) ∈ unitSquarePts ∧
      bowtieWalkB (0, 0) (1, 0) (0, 1) (1, 1) = true) ∧
    0 < convexity_loss (0, 0) (1, 0) (1, 1) (0, 1) := by
  have hb : bowtieWalkB ((0 : ℚ), (0 : ℚ)) (1, 0) (0, 1) (1, 1) = true := by
    norm_num [bowtieWalkB, properCrossB, orient]
  refine ⟨⟨by norm_num [unitSquarePts], by norm_num [unitSquarePts],
    by norm_num [unitSquarePts], by norm_num [unitSquarePts], hb⟩, ?_⟩
  exact claim_C5_convexity_square_zero_bowtie_positive.2 (0, 0) (1, 0) (1, 1) (0, 1)
    (by norm_num [unitSquarePts]) (by norm_num [unitSquarePts])
    (by norm_num [unitSquarePts]) (by norm_num [unitSquarePts]) hb

/-- Helper: a softmax-weighted sum is invariant under subtracting a constant
`M` from every logit (the `exp(-M)` factors cancel between numerator and
denominator). -/
theorem sum_shift_softmax (f c : ℕ → ℕ → ℝ) (h w : ℕ) (M : ℝ) :
    (∑ y ∈ Finset.range h, ∑ x ∈ Finset.range w,
        Real.exp (f y x - M) /
          (∑ y ∈ Finset.range h, ∑ x ∈ Finset.range w, Real.exp (f y x - M)) * c y x) =
    ∑ y ∈ Finset.range h, ∑ x ∈ Finset.range w,
        Real.exp (f y x) /
          (∑ y ∈ Finset.range h, ∑ x ∈ Finset.range w, Real.exp (f y x)) * c y x := by
  have hden : (∑ y ∈ Finset.range h, ∑ x ∈ Finset.range w, Real.exp (f y x - M)) =
      (∑ y ∈ Finset.range h, ∑ x ∈ Finset.range w, Real.exp (f y x)) / Real.exp M := by
    simp only [Real.exp_sub, Finset.sum_div]
  rw [hden]
  refine Finset.sum_congr rfl fun y _ => Finset.sum_congr rfl fun x _ => ?_
  rw [Real.exp_sub]
  rcases eq_or_ne (∑ y ∈ Finset.range h, ∑ x ∈ Finset.range w, Real.exp (f y x)) 0 with hS | hS
  · simp [hS]
  · have hM0 : Real.exp M ≠ 0 := Real.exp_ne_zero M
    field_simp

/-- C2 counterexample: on the all-zero 2×2 heatmap the inline per-sample
decode of `generate_inference_samples` (temperature 1, denominator padded
with `1e-8`) returns an x-coordinate of `2 / (4 + 1e-8)`, while the
training-loss decoder `dsnt_decode` returns exactly `1/2`, so the claimed
three-way equality of the decoders fails. -/
theorem claim_C2_counterexample_inline_decode_differs :
    inline_dsnt_decode zeroHeatmap 2 2 ≠ dsnt_decode zeroHeatmap 2 2 := by
  have hM : flatMax zeroHeatmap 2 2 = 0 := by
    simp [flatMax, zeroHeatmap, List.range_succ]
  intro hEq
  have h1 := congrArg Prod.fst hEq
  simp only [inline_dsnt_decode, dsnt_decode] at h1
  rw [hM] at h1
  simp only [zeroHeatmap, linspace01, Finset.sum_range_succ, Finset.sum_range_zero,
    Real.exp_zero, sub_zero, zero_mul, mul_zero] at h1
  norm_num at h1

/-- C2 amended: the two decoders named by the spec sentence do agree — for
every heatmap and dimensions the numpy decoder at temperature 10 equals the
TensorFlow decoder used inside the training loss (the stability shift by the
flattened maximum cancels exactly). -/
theorem claim_C2_amended_numpy_matches_training_decode :
    ∀ (hm : ℕ → ℕ → ℝ) (h w : ℕ), dsnt_decode_numpy hm h w 10 = dsnt_decode hm h w := by
  intro hm h w
  simp only [dsnt_decode_numpy, dsnt_decode, Prod.mk.injEq]
  constructor
  · rw [sum_shift_softmax (fun y x => hm y x * 10) (fun _ x => linspace01 w x) h w]
    exact Finset.sum_congr rfl fun y _ => Finset.sum_congr rfl fun x _ => mul_comm _ _
  · rw [sum_shift_softmax (fun y x => hm y x * 10) (fun y _ => linspace01 h y) h w]
    exact Finset.sum_congr rfl fun y _ => Finset.sum_congr rfl fun x _ => mul_comm _ _

/-- C6: `estimate_marker_size` always returns a value clamped to `[20, 150]`,
and on the corners `(0.1,0.1),(0.9,0.1),(0.1,0.9),(0.9,0.9)` of a 224×224
image with `size_factor = 0.18` (edges of exactly 179.2 px) it returns
exactly 32. -/
theorem claim_C6_estimate_marker_size_clamped_and_scenario :
    (∀ (c0 c1 c2 c3 : ℝ × ℝ) (w h : ℕ) (f : ℝ),
        20 ≤ estimate_marker_size c0 c1 c2 c3 w h f ∧
          estimate_marker_size c0 c1 c2 c3 w h f ≤ 150) ∧
    estimate_marker_size (0.1, 0.1) (0.9, 0.1) (0.1, 0.9) (0.9, 0.9) 224 224 0.18 = 32 := by
  constructor
  · intro c0 c1 c2 c3 w h f
    refine ⟨le_max_left _ _, max_le (by norm_num) (min_le_right _ _)⟩
  · simp only [estimate_marker_size]
    norm_num
    rw [show (802816 : ℝ) = 896 ^ 2 by norm_num, Real.sqrt_sq (by norm_num : (0:ℝ) ≤ 896),
        show (25 : ℝ) = 5 ^ 2 by norm_num, Real.sqrt_sq (by norm_num : (0:ℝ) ≤ 5)]
    norm_num [truncInt, min_def, max_def]

/-- Helper: the `(0.5, 0.5)` heatmap factorizes through `gaussF`. -/
theorem generate_heatmap_half_eq (y x : ℕ) :
    generate_heatmap (0.5, 0.5) 56 2 y x = gaussF x * gaussF y := by
  simp only [generate_heatmap, gaussF]
  rw [← Real.exp_add]
  congr 1
  norm_num
  ring

/-- Helper: the one-dimensional factor is positive. -/
theorem gaussF_pos (i : ℕ) : 0 < gaussF i := Real.exp_pos _

/-- Helper: the one-dimensional factor is at most one. -/
theorem gaussF_le_one (i : ℕ) : gaussF i ≤ 1 := by
  rw [gaussF, Real.exp_le_one_iff]
  have h := sq_nonneg ((i : ℝ) - 28)
  linarith

/-- Helper: each softmax weight is at least one (the logits are nonnegative). -/
theorem gaussW_one_le (y x : ℕ) : 1 ≤ gaussW y x := by
  rw [gaussW]
  exact Real.one_le_exp
    (mul_nonneg (mul_nonneg (gaussF_pos x).le (gaussF_pos y).le) (by norm_num))

/-- Helper: the corner factor `gaussF 0 = exp(-98)` is below `1/99`. -/
theorem gaussF_zero_le : gaussF 0 ≤ 1 / 99 := by
  rw [gaussF]
  have h : -((((0 : ℕ) : ℝ) - 28) ^ 2) / 8 = -98 := by norm_num
  rw [h, Real.exp_neg]
  have h99 : (99 : ℝ) < Real.exp 98 := by
    have := Real.add_one_lt_exp (by norm_num : (98 : ℝ) ≠ 0)
    linarith
  have := inv_anti₀ (by norm_num : (0 : ℝ) < 99) h99.le
  simpa using this

/-- Helper: weights in the column of the corner pixel `x = 0` are at most 3. -/
theorem gaussW_col0_le (y : ℕ) : gaussW y 0 ≤ 3 := by
  rw [gaussW]
  have harg : gaussF 0 * gaussF y * 10 ≤ 1 := by
    have h0 := gaussF_zero_le
    have h1 := gaussF_le_one y
    have h2 := (gaussF_pos 0).le
    have h3 := (gaussF_pos y).le
    nlinarith
  calc Real.exp (gaussF 0 * gaussF y * 10) ≤ Real.exp 1 := Real.exp_le_exp.mpr harg
    _ ≤ 3 := by have := Real.exp_one_lt_d9; linarith

/-- Helper: column sums are positive. -/
theorem gaussS_pos (x : ℕ) : 0 < gaussS x := by
  rw [gaussS]
  exact Finset.sum_pos (fun y _ => Real.exp_pos _) ⟨0, by norm_num⟩

/-- Helper: the corner column sum is at most `56 · 3 = 168`. -/
theorem gaussS_zero_le : gaussS 0 ≤ 168 := by
  rw [gaussS]
  calc (∑ y ∈ Finset.range 56, gaussW y 0) ≤ ∑ _y ∈ Finset.range 56, (3 : ℝ) :=
      Finset.sum_le_sum fun y _ => gaussW_col0_le y
    _ = 168 := by simp; norm_num

/-- Helper: every column sum is at least 56. -/
theorem gaussS_col_lower (x : ℕ) : (56 : ℝ) ≤ gaussS x := by
  rw [gaussS]
  calc (56 : ℝ) = ∑ _y ∈ Finset.range 56, (1 : ℝ) := by simp
    _ ≤ ∑ y ∈ Finset.range 56, gaussW y x := Finset.sum_le_sum fun y _ => gaussW_one_le y x

/-- Helper: the total mass is at least `56 · 56 = 3136`. -/
theorem gaussZ_lower : (3136 : ℝ) ≤ gaussZ := by
  rw [gaussZ]
  calc (3136 : ℝ) = ∑ _x ∈ Finset.range 56, (56 : ℝ) := by simp; norm_num
    _ ≤ ∑ x ∈ Finset.range 56, gaussS x := Finset.sum_le_sum fun x _ => gaussS_col_lower x

/-- Helper: the one-dimensional factor is symmetric about the center 28. -/
theorem gaussF_reflect (x : ℕ) (hx : x ≤ 56) : gaussF (56 - x) = gaussF x := by
  rw [gaussF, gaussF]
  congr 1
  rw [Nat.cast_sub hx]
  ring

/-- Helper: column sums share the symmetry. -/
theorem gaussS_reflect (x : ℕ) (hx : x ≤ 56) : gaussS (56 - x) = gaussS x := by
  rw [gaussS, gaussS]
  exact Finset.sum_congr rfl fun y _ => by rw [gaussW, gaussW, gaussF_reflect x hx]

/-- Helper: the first moment of the column sums collapses by symmetry to
`28 (Z - S 0)`: columns `x` and `56 - x` pair up, only `x = 0` is unpaired. -/
theorem gauss_sum_reflect_key :
    ∑ x ∈ Finset.range 56, (x : ℝ) * gaussS x = 28 * (gaussZ - gaussS 0) := by
  have hz : gaussZ = (∑ j ∈ Finset.range 55, gaussS (j + 1)) + gaussS 0 :=
    Finset.sum_range_succ' (fun x => gaussS x) 55
  have ha : ∑ x ∈ Finset.range 56, (x : ℝ) * gaussS x
      = ∑ j ∈ Finset.range 55, ((j + 1 : ℕ) : ℝ) * gaussS (j + 1) := by
    rw [show (∑ x ∈ Finset.range 56, (x : ℝ) * gaussS x)
        = (∑ j ∈ Finset.range 55, ((j + 1 : ℕ) : ℝ) * gaussS (j + 1))
          + ((0 : ℕ) : ℝ) * gaussS 0 from
      Finset.sum_range_succ' (fun x => (x : ℝ) * gaussS x) 55]
    simp
  have hb : ∑ j ∈ Finset.range 55, ((j + 1 : ℕ) : ℝ) * gaussS (j + 1)
      = ∑ j ∈ Finset.range 55, ((55 - j : ℕ) : ℝ) * gaussS (55 - j) := by
    rw [← Finset.sum_range_reflect (fun j => ((j + 1 : ℕ) : ℝ) * gaussS (j + 1)) 55]
    refine Finset.sum_congr rfl fun j hj => ?_
    have hj55 : j < 55 := Finset.mem_range.mp hj
    have he : 55 - 1 - j + 1 = 55 - j := by omega
    rw [he]
  have hc : ∀ j ∈ Finset.range 55, ((55 - j : ℕ) : ℝ) * gaussS (55 - j)
      = ((55 - j : ℕ) : ℝ) * gaussS (j + 1) := by
    intro j hj
    have hj55 : j < 55 := Finset.mem_range.mp hj
    have h1 : (55 - j : ℕ) = 56 - (j + 1) := by omega
    rw [h1, gaussS_reflect (j + 1) (by omega)]
  have hsum2 : (∑ j ∈ Finset.range 55, ((j + 1 : ℕ) : ℝ) * gaussS (j + 1)) * 2
      = ∑ j ∈ Finset.range 55, 56 * gaussS (j + 1) := by
    calc (∑ j ∈ Finset.range 55, ((j + 1 : ℕ) : ℝ) * gaussS (j + 1)) * 2
        = (∑ j ∈ Finset.range 55, ((j + 1 : ℕ) : ℝ) * gaussS (j + 1))
          + ∑ j ∈ Finset.range 55, ((55 - j : ℕ) : ℝ) * gaussS (j + 1) := by
          rw [← Finset.sum_congr rfl hc, ← hb]; ring
      _ = ∑ j ∈ Finset.range 55, (((j + 1 : ℕ) : ℝ) + ((55 - j : ℕ) : ℝ)) * gaussS (j + 1) := by
          rw [← Finset.sum_add_distrib]
          exact Finset.sum_congr rfl fun j _ => by ring
      _ = ∑ j ∈ Finset.range 55, 56 * gaussS (j + 1) := by
          refine Finset.sum_congr rfl fun j hj => ?_
          have hj55 : j ≤ 55 := (Finset.mem_range.mp hj).le
          rw [Nat.cast_sub hj55]
          push_cast
          ring_nf
  have htail : (∑ j ∈ Finset.range 55, 56 * gaussS (j + 1)) = 56 * (gaussZ - gaussS 0) := by
    rw [← Finset.mul_sum]
    rw [hz]
    ring
  rw [ha]
  linarith [hsum2, htail]

/-- Helper: the numpy DSNT decode of the `(0.5, 0.5)` heatmap evaluates in
closed form to `28 (Z - S 0) / (55 Z)` in both coordinates. -/
theorem roundtrip_decode_eq :
    dsnt_decode_numpy (generate_heatmap (0.5, 0.5) 56 2) 56 56 10
      = (28 * (gaussZ - gaussS 0) / (55 * gaussZ),
         28 * (gaussZ - gaussS 0) / (55 * gaussZ)) := by
  have hW : ∀ y x : ℕ, Real.exp (generate_heatmap (0.5, 0.5) 56 2 y x * 10) = gaussW y x := by
    intro y x
    rw [generate_heatmap_half_eq, gaussW]
  have hden : (∑ y ∈ Finset.range 56, ∑ x ∈ Finset.range 56, gaussW y x) = gaussZ := by
    rw [gaussZ]
    refine (Finset.sum_comm).symm.trans ?_
    exact Finset.sum_congr rfl fun x _ => rfl
  have hS : ∀ x : ℕ, (∑ y ∈ Finset.range 56, gaussW y x) = gaussS x := fun x => rfl
  have hrow : ∀ y : ℕ, (∑ x ∈ Finset.range 56, gaussW y x) = gaussS y := by
    intro y
    rw [gaussS]
    refine Finset.sum_congr rfl fun a _ => ?_
    rw [gaussW, gaussW]
    congr 1
    ring
  have hls : ∀ x : ℕ, linspace01 56 x = (x : ℝ) / 55 := by
    intro x
    rw [linspace01]
    norm_num
  simp only [dsnt_decode_numpy, Prod.mk.injEq]
  constructor
  · rw [sum_shift_softmax (fun y x => generate_heatmap (0.5, 0.5) 56 2 y x * 10)
      (fun _ x => linspace01 56 x) 56 56]
    simp only [hW, hden, div_mul_eq_mul_div, ← Finset.sum_div]
    rw [Finset.sum_comm]
    simp only [← Finset.sum_mul, hS, hls]
    rw [show (∑ x ∈ Finset.range 56, gaussS x * ((x : ℝ) / 55))
        = (∑ x ∈ Finset.range 56, (x : ℝ) * gaussS x) / 55 by
      rw [Finset.sum_div]
      exact Finset.sum_congr rfl fun x _ => by ring]
    rw [gauss_sum_reflect_key, div_div]
  · rw [sum_shift_softmax (fun y x => generate_heatmap (0.5, 0.5) 56 2 y x * 10)
      (fun y _ => linspace01 56 y) 56 56]
    simp only [hW, hden, div_mul_eq_mul_div, ← Finset.sum_div]
    simp only [← Finset.sum_mul, hrow, hls]
    rw [show (∑ y ∈ Finset.range 56, gaussS y * ((y : ℝ) / 55))
        = (∑ y ∈ Finset.range 56, (y : ℝ) * gaussS y) / 55 by
      rw [Finset.sum_div]
      exact Finset.sum_congr rfl fun y _ => by ring]
    rw [gauss_sum_reflect_key, div_div]

/-- C4: encoding the keypoint `(0.5, 0.5)` with `generate_heatmap` at size 56,
sigma 2.0, and decoding with the numpy DSNT decoder at temperature 10.0 yields
a point within 0.02 of `(0.5, 0.5)` in each coordinate. -/
theorem claim_C4_heatmap_dsnt_roundtrip :
    |(dsnt_decode_numpy (generate_heatmap (0.5, 0.5) 56 2) 56 56 10).1 - 0.5| < 0.02 ∧
    |(dsnt_decode_numpy (generate_heatmap (0.5, 0.5) 56 2) 56 56 10).2 - 0.5| < 0.02 := by
  rw [roundtrip_decode_eq]
  have hZ := gaussZ_lower
  have hS0u := gaussS_zero_le
  have hS0l := gaussS_pos 0
  have h55 : (0 : ℝ) < 55 * gaussZ := by linarith
  have hupper : 28 * (gaussZ - gaussS 0) / (55 * gaussZ) < 0.52 := by
    rw [div_lt_iff₀ h55]
    nlinarith
  have hlower : (0.48 : ℝ) < 28 * (gaussZ - gaussS 0) / (55 * gaussZ) := by
    rw [lt_div_iff₀ h55]
    nlinarith
  constructor <;> · rw [abs_lt]; constructor <;> simp only [] <;> linarith

/-- C8: `mask_markers` raises its `ValueError` exactly when the corner list
does not have 4 entries; with 4 corners no corner-count error is raised. -/
theorem claim_C8_corner_count_error_iff :
    ∀ (img : MetaImage) (corners : List (ℝ × ℝ)) (m : MaskMethod) (f e : ℝ),
      (∃ msg, mask_markers_checked img corners m f e = Except.error msg) ↔
        corners.length ≠ 4 := by
  intro img corners m f e
  by_cases hlen : corners.length = 4 <;> simp [mask_markers_checked, hlen]

/-- C9: when the corner coincides with the quad centroid, the `length > 0`
guard skips the normalization, so no division by zero happens: the direction
stays the (finite) zero vector, the mask center is exactly the pixel corner
with no outward offset, and every vertex of the returned polygon is a finite
value (no NaN). -/
theorem claim_C9_centroid_corner_no_nan :
    ∀ (corner quadCenter : ℝ × ℝ) (ms : ℤ) (w h : ℕ) (e : ℝ),
      corner = quadCenter →
      maskDirectionF corner quadCenter w h = (some 0, some 0) ∧
      maskCenterF corner quadCenter ms w h
        = (some (corner.1 * w), some (corner.2 * h)) ∧
      ∀ p ∈ getRotatedMaskPolygonF corner quadCenter ms w h e,
        p.1.isSome ∧ p.2.isSome := by
  intro corner quadCenter ms w h e hc
  subst hc
  have hdir : maskDirectionF corner corner w h = (some 0, some 0) := by
    simp [maskDirectionF, fSub, fMul, fAdd, fSqrt]
  have hcen : maskCenterF corner corner ms w h
      = (some (corner.1 * w), some (corner.2 * h)) := by
    simp [maskCenterF, hdir, fMul, fAdd]
  refine ⟨hdir, hcen, ?_⟩
  intro p hp
  simp only [getRotatedMaskPolygonF, hdir, hcen, fArctan2, fMul, fAdd, fSub,
    Option.map_some, List.map_cons, List.map_nil] at hp
  fin_cases hp <;> simp

/-- Witness for C9 at the concrete degenerate input: corner and centroid both
`(0.5, 0.5)`, marker size 20, a 100×100 image, expansion 2. -/
theorem claim_C9_centroid_corner_no_nan_witness :
    (((0.5, 0.5) : ℝ × ℝ) = ((0.5, 0.5) : ℝ × ℝ)) ∧
    (maskDirectionF (0.5, 0.5) (0.5, 0.5) 100 100 = (some 0, some 0) ∧
      maskCenterF (0.5, 0.5) (0.5, 0.5) 20 100 100
        = (some (((0.5, 0.5) : ℝ × ℝ).1 * (100 : ℕ)), some (((0.5, 0.5) : ℝ × ℝ).2 * (100 : ℕ))) ∧
      ∀ p ∈ getRotatedMaskPolygonF (0.5, 0.5) (0.5, 0.5) 20 100 100 2,
        p.1.isSome ∧ p.2.isSome) :=
  ⟨rfl, claim_C9_centroid_corner_no_nan (0.5, 0.5) (0.5, 0.5) 20 100 100 2 rfl⟩

/-- Helper: with all corners at the image center the quad is degenerate, all
edges are 0, and the estimated marker size clamps up to 20. -/
theorem demo_marker_size :
    estimate_marker_size (0.5, 0.5) (0.5, 0.5) (0.5, 0.5) (0.5, 0.5) 100 100 0.18 = 20 := by
  simp only [estimate_marker_size]
  norm_num [truncInt, min_def, max_def]

/-- Helper: the rotated polygon at the degenerate center corner is the plain
axis-aligned square `[30,70]²` (direction zero, angle `arctan2 0 0 = 0`). -/
theorem demo_polygon :
    getRotatedMaskPolygon (0.5, 0.5) (0.5, 0.5) 20 100 100 2 0 =
      [(30, 30), (70, 30), (70, 70), (30, 70)] := by
  have hfd : Int.fdiv 40 2 = 20 := by decide
  simp only [getRotatedMaskPolygon]
  norm_num [arctan2, truncInt]
  rw [hfd]
  norm_num

/-- Helper: that region is nonempty, so the inpaint branch runs; on a float
input it rebinds `result` to `inpainted.astype(np.float32) / 255.0`. -/
theorem demo_step_inpaint (d : NpDtype) :
    maskCornerDtypeStep true MaskMethod.inpaint 100 100 (0.5, 0.5) 20 2 d (0.5, 0.5)
      = NpDtype.f32 := by
  simp only [maskCornerDtypeStep, demo_polygon]
  norm_num [listMinD, listMaxD, min_def, max_def]

/-- C7 counterexample: a float64 100×100×3 image masked with
`method="inpaint"` at the 4-corner annotation `demoCorners` comes back as
float32 — the dtype is not preserved, refuting the claim for the
(float64, inpaint) combination. -/
theorem claim_C7_counterexample_float64_inpaint :
    (mask_markers_meta ⟨100, 100, 3, NpDtype.f64⟩ demoCorners MaskMethod.inpaint 0.18 2).dtype
        = NpDtype.f32 ∧
    NpDtype.f32 ≠ NpDtype.f64 := by
  have hqc : quadCenterOf demoCorners = ((0.5 : ℝ), (0.5 : ℝ)) := by
    simp only [quadCenterOf, demoCorners]
    norm_num
  refine ⟨?_, by decide⟩
  simp only [mask_markers_meta]
  rw [hqc, show demoCorners.getD 0 (0, 0) = ((0.5 : ℝ), (0.5 : ℝ)) from rfl,
    show demoCorners.getD 1 (0, 0) = ((0.5 : ℝ), (0.5 : ℝ)) from rfl,
    show demoCorners.getD 2 (0, 0) = ((0.5 : ℝ), (0.5 : ℝ)) from rfl,
    show demoCorners.getD 3 (0, 0) = ((0.5 : ℝ), (0.5 : ℝ)) from rfl,
    demo_marker_size,
    show (decide (NpDtype.f64 = NpDtype.f32 ∨ True)) = true from rfl,
    show demoCorners = [((0.5 : ℝ), (0.5 : ℝ)), (0.5, 0.5), (0.5, 0.5), (0.5, 0.5)] from rfl]
  simp only [List.foldl_cons, List.foldl_nil, demo_step_inpaint]

/-- Helper: one corner-loop iteration never changes the dtype except in the
(float64, inpaint) combination. -/
theorem maskCornerDtypeStep_preserves (d : NpDtype) (m : MaskMethod) (w h : ℕ)
    (qc : ℝ × ℝ) (ms : ℤ) (e : ℝ) (corner : ℝ × ℝ)
    (hd : ¬(d = NpDtype.f64 ∧ m = MaskMethod.inpaint)) :
    maskCornerDtypeStep (decide (d = NpDtype.f32 ∨ d = NpDtype.f64)) m w h qc ms e d corner
      = d := by
  simp only [maskCornerDtypeStep]
  split
  · rfl
  · cases d <;> cases m <;> simp_all [promoteF]

/-- Helper: the corner fold never changes the dtype except for
(float64, inpaint). -/
theorem maskCornerDtype_foldl_preserves (d : NpDtype) (m : MaskMethod) (w h : ℕ)
    (qc : ℝ × ℝ) (ms : ℤ) (e : ℝ) (cs : List (ℝ × ℝ))
    (hd : ¬(d = NpDtype.f64 ∧ m = MaskMethod.inpaint)) :
    cs.foldl (maskCornerDtypeStep (decide (d = NpDtype.f32 ∨ d = NpDtype.f64)) m w h qc ms e) d
      = d := by
  induction cs with
  | nil => rfl
  | cons c cs ih =>
    rw [List.foldl_cons, maskCornerDtypeStep_preserves d m w h qc ms e c hd, ih]

/-- C7 amended: `mask_markers` always preserves the input's shape, and it
preserves the input's dtype for uint8 and float32 inputs under every method
and for float64 inputs under `noise`, `blur`, and `black`; only the
(float64, inpaint) combination escapes (it returns float32 when any mask
region is nonempty). -/
theorem claim_C7_amended_shape_always_dtype_except_f64_inpaint :
    ∀ (img : MetaImage) (cs : List (ℝ × ℝ)) (m : MaskMethod) (f e : ℝ),
      ((mask_markers_meta img cs m f e).height = img.height ∧
        (mask_markers_meta img cs m f e).width = img.width ∧
        (mask_markers_meta img cs m f e).channels = img.channels) ∧
      (¬(img.dtype = NpDtype.f64 ∧ m = MaskMethod.inpaint) →
        (mask_markers_meta img cs m f e).dtype = img.dtype) := by
  intro img cs m f e
  refine ⟨⟨rfl, rfl, rfl⟩, fun hd => ?_⟩
  simp only [mask_markers_meta]
  exact maskCornerDtype_foldl_preserves img.dtype m img.width img.height
    (quadCenterOf cs) _ e cs hd

/-- Witness for C7: a uint8 image under `noise` keeps its shape and dtype. -/
theorem claim_C7_amended_witness :
    ¬((MetaImage.mk 10 10 3 NpDtype.u8).dtype = NpDtype.f64 ∧
        MaskMethod.noise = MaskMethod.inpaint) ∧
    ((mask_markers_meta ⟨10, 10, 3, NpDtype.u8⟩ [] MaskMethod.noise 0.18 2).height = 10 ∧
      (mask_markers_meta ⟨10, 10, 3, NpDtype.u8⟩ [] MaskMethod.noise 0.18 2).dtype
        = NpDtype.u8) := by
  have h := claim_C7_amended_shape_always_dtype_except_f64_inpaint
    ⟨10, 10, 3, NpDtype.u8⟩ [] MaskMethod.noise 0.18 2
  exact ⟨by decide, h.1.1, h.2 (by decide)⟩

/-- Helper: allocation does not disturb other arrays. -/
theorem heapAlloc_fst_mem {α : Type} (hp : Heap α) (v : α) (r : ℕ) (hr : r ≠ hp.next) :
    (heapAlloc hp v).1.mem r = hp.mem r := by
  simp [heapAlloc, hr]

/-- Helper: allocation bumps the frontier by one. -/
theorem heapAlloc_fst_next {α : Type} (hp : Heap α) (v : α) :
    (heapAlloc hp v).1.next = hp.next + 1 := rfl

/-- Helper: allocation returns the old frontier as the fresh reference. -/
theorem heapAlloc_snd {α : Type} (hp : Heap α) (v : α) : (heapAlloc hp v).2 = hp.next := rfl

/-- Helper: writing one array does not disturb the others. -/
theorem heapWrite_mem_of_ne {α : Type} (hp : Heap α) (t : ℕ) (v : α) (r : ℕ)
    (hr : r ≠ t) : (heapWrite hp t v).mem r = hp.mem r := by
  simp [heapWrite, hr]

/-- Helper: writes do not move the frontier. -/
theorem heapWrite_next {α : Type} (hp : Heap α) (t : ℕ) (v : α) :
    (heapWrite hp t v).next = hp.next := rfl

/-- Helper: a state ending in a fresh allocation satisfies all four parts of
the loop invariant with respect to a heap whose contents at `imageRef` it
preserves. -/
theorem final_alloc_inv {α : Type} (hq : Heap α) (v : α) (hp0 : Heap α) (imageRef : ℕ)
    (hmem : hq.mem imageRef = hp0.mem imageRef) (hlt : imageRef < hq.next) :
    (heapAlloc hq v).1.mem imageRef = hp0.mem imageRef ∧
      imageRef < (heapAlloc hq v).1.next ∧
      (heapAlloc hq v).2 ≠ imageRef ∧
      (heapAlloc hq v).2 < (heapAlloc hq v).1.next := by
  refine ⟨?_, ?_, ?_, ?_⟩
  · rw [heapAlloc_fst_mem hq v imageRef (by omega)]
    exact hmem
  · rw [heapAlloc_fst_next]
    omega
  · rw [heapAlloc_snd]
    omega
  · rw [heapAlloc_snd, heapAlloc_fst_next]
    omega

/-- Helper: every branch of the corner loop only allocates fresh arrays or
writes through `poly_mask` and `result`, never through any older array; so it
preserves the contents at `imageRef` and keeps `result` bound to an in-range
reference distinct from `imageRef`. -/
theorem maskCornerHeapStep_inv {α : Type} (ops : ArrayOps α) (isFloat : Bool)
    (m : MaskMethod) (w h : ℕ) (qc : ℝ × ℝ) (ms : ℤ) (e : ℝ) (hp0 : Heap α)
    (imageRef : ℕ) (st : Heap α × ℕ) (corner : ℝ × ℝ) (st2 : Heap α × ℕ)
    (hst2 : st2 = maskCornerHeapStep ops isFloat m w h qc ms e st corner)
    (h1 : st.1.mem imageRef = hp0.mem imageRef) (h2 : imageRef < st.1.next)
    (h3 : st.2 ≠ imageRef) (h4 : st.2 < st.1.next) :
    st2.1.mem imageRef = hp0.mem imageRef ∧ imageRef < st2.1.next ∧
      st2.2 ≠ imageRef ∧ st2.2 < st2.1.next := by
  unfold maskCornerHeapStep at hst2
  lift_lets at hst2
  extract_lets hp resultRef poly x1 y1 x2 y2 a1 hp1 maskRef hp2 b1 b2 f1 t1 i1 t1c at hst2
  have hrr : resultRef = st.2 := rfl
  have hmRef : maskRef = st.1.next := rfl
  have hp2next : hp2.next = st.1.next + 1 := rfl
  have hp2mem : hp2.mem imageRef = hp0.mem imageRef := by
    calc hp2.mem imageRef
        = hp1.mem imageRef := heapWrite_mem_of_ne hp1 maskRef _ imageRef (by omega)
      _ = st.1.mem imageRef := heapAlloc_fst_mem st.1 ops.zerosArr imageRef (by omega)
      _ = hp0.mem imageRef := h1
  by_cases hreg : x2 ≤ x1 ∨ y2 ≤ y1
  · rw [if_pos hreg] at hst2
    subst hst2
    exact ⟨h1, h2, h3, h4⟩
  · rw [if_neg hreg] at hst2
    cases m with
    | noise =>
      rw [if_pos rfl] at hst2
      subst hst2
      have hb1n : b1.1.next = st.1.next + 1 + 1 := rfl
      have hb2n : b2.1.next = st.1.next + 1 + 1 + 1 := rfl
      have hf1n : f1.1.next = st.1.next + 1 + 1 + 1 + 1 := rfl
      have hf1mem : f1.1.mem imageRef = hp0.mem imageRef := by
        calc f1.1.mem imageRef
            = b2.1.mem imageRef := heapAlloc_fst_mem b2.1 _ imageRef (by omega)
          _ = b1.1.mem imageRef := heapAlloc_fst_mem b1.1 _ imageRef (by omega)
          _ = hp2.mem imageRef := heapAlloc_fst_mem hp2 _ imageRef (by omega)
          _ = hp0.mem imageRef := hp2mem
      exact final_alloc_inv f1.1 _ hp0 imageRef hf1mem (by omega)
    | blur =>
      rw [if_neg (by decide), if_pos rfl] at hst2
      subst hst2
      have hb1n : b1.1.next = st.1.next + 1 + 1 := rfl
      have hb2n : b2.1.next = st.1.next + 1 + 1 + 1 := rfl
      have hb2mem : b2.1.mem imageRef = hp0.mem imageRef := by
        calc b2.1.mem imageRef
            = b1.1.mem imageRef := heapAlloc_fst_mem b1.1 _ imageRef (by omega)
          _ = hp2.mem imageRef := heapAlloc_fst_mem hp2 _ imageRef (by omega)
          _ = hp0.mem imageRef := hp2mem
      exact final_alloc_inv b2.1 _ hp0 imageRef hb2mem (by omega)
    | black =>
      rw [if_neg (by decide), if_neg (by decide), if_pos rfl] at hst2
      subst hst2
      refine ⟨?_, ?_, ?_, ?_⟩
      · calc (heapWrite hp2 resultRef
              (ops.blackenArr (hp2.mem resultRef) (hp2.mem maskRef))).mem imageRef
            = hp2.mem imageRef := heapWrite_mem_of_ne hp2 resultRef _ imageRef (by omega)
          _ = hp0.mem imageRef := hp2mem
      · rw [heapWrite_next]
        omega
      · omega
      · rw [heapWrite_next]
        omega
    | inpaint =>
      rw [if_neg (by decide), if_neg (by decide), if_neg (by decide), if_pos rfl] at hst2
      cases isFloat with
      | true =>
        rw [if_pos rfl] at hst2
        subst hst2
        have ht1n : t1.1.next = st.1.next + 1 + 1 := rfl
        have hi1n : i1.1.next = st.1.next + 1 + 1 + 1 := rfl
        have hi1mem : i1.1.mem imageRef = hp0.mem imageRef := by
          calc i1.1.mem imageRef
              = t1.1.mem imageRef := heapAlloc_fst_mem t1.1 _ imageRef (by omega)
            _ = hp2.mem imageRef := heapAlloc_fst_mem hp2 _ imageRef (by omega)
            _ = hp0.mem imageRef := hp2mem
        exact final_alloc_inv i1.1 _ hp0 imageRef hi1mem (by omega)
      | false =>
        rw [if_neg (by decide)] at hst2
        subst hst2
        have ht1cn : t1c.1.next = st.1.next + 1 + 1 := rfl
        have ht1cmem : t1c.1.mem imageRef = hp0.mem imageRef := by
          calc t1c.1.mem imageRef
              = hp2.mem imageRef := heapAlloc_fst_mem hp2 _ imageRef (by omega)
            _ = hp0.mem imageRef := hp2mem
        exact final_alloc_inv t1c.1 _ hp0 imageRef ht1cmem (by omega)

/-- Helper: folding the corner loop over any corner list preserves the
contents at `imageRef`. -/
theorem maskHeap_foldl_inv {α : Type} (ops : ArrayOps α) (isFloat : Bool)
    (m : MaskMethod) (w h : ℕ) (qc : ℝ × ℝ) (ms : ℤ) (e : ℝ) (hp0 : Heap α)
    (imageRef : ℕ) :
    ∀ (cs : List (ℝ × ℝ)) (st : Heap α × ℕ),
      st.1.mem imageRef = hp0.mem imageRef → imageRef < st.1.next →
      st.2 ≠ imageRef → st.2 < st.1.next →
      (cs.foldl (maskCornerHeapStep ops isFloat m w h qc ms e) st).1.mem imageRef
        = hp0.mem imageRef := by
  intro cs
  induction cs with
  | nil => intro st hmem _ _ _; exact hmem
  | cons c rest ih =>
    intro st hmem hlt hne hrlt
    rw [List.foldl_cons]
    obtain ⟨k1, k2, k3, k4⟩ :=
      maskCornerHeapStep_inv ops isFloat m w h qc ms e hp0 imageRef st c _ rfl
        hmem hlt hne hrlt
    exact ih _ k1 k2 k3 k4

/-- C10: `mask_markers` never mutates its input array: for every heap, every
in-range input reference, every corner list, method, and float flag, the
input array holds exactly the same contents after the call as before
(every statement of the body allocates fresh arrays or writes only through
`result` and `poly_mask`, both freshly allocated). -/
theorem claim_C10_mask_markers_never_writes_input :
    ∀ {α : Type} (ops : ArrayOps α) (hp0 : Heap α) (imageRef : ℕ)
      (corners : List (ℝ × ℝ)) (m : MaskMethod) (isFloat : Bool) (w h : ℕ) (f e : ℝ),
      imageRef < hp0.next →
      (mask_markers_heap ops hp0 imageRef corners m isFloat w h f e).1.mem imageRef
        = hp0.mem imageRef := by
  intro α ops hp0 imageRef corners m isFloat w h f e href
  have hne : ¬(imageRef = hp0.next) := by omega
  simp only [mask_markers_heap]
  apply maskHeap_foldl_inv
  · simp [heapAlloc, hne]
  · simp [heapAlloc]
    omega
  · simp [heapAlloc]
    omega
  · simp [heapAlloc]

/-- Witness for C10: the trivial heap with one array at reference 0. -/
theorem claim_C10_mask_markers_never_writes_input_witness :
    (0 : ℕ) < trivHeap.next ∧
    (mask_markers_heap trivArrayOps trivHeap 0 [] MaskMethod.black false 10 10 0.18 2).1.mem 0
      = trivHeap.mem 0 :=
  ⟨by decide,
    claim_C10_mask_markers_never_writes_input trivArrayOps trivHeap 0 []
      MaskMethod.black false 10 10 0.18 2 (by decide)⟩

end BoundaryDetector
